import Mathlib

/-!
Verification of the rs-mitm connection pool core against its specification.

The development shallowly embeds the two components the claims are about:

* the preamble classifier of `src/server.rs` (`PreambleState`,
  `BigFunnyStateMachine`), with bytes as `Nat` and the `unreachable!` arms of
  `BigFunnyStateMachine::next` modelled as `none`;
* the dual-indexed availability list of `src/avail_list.rs`, modelled in the
  arena style: an entry is identified
  by the address of its `Arc` (a `Nat` here), the recency order is the list of
  identities front-first, and the identity index (RBTree) is represented by the
  list of identities it holds — the claims only inspect membership and
  multiplicity of keys, never the tree's internal ordering.
-/

/-! ## Preamble classifier (src/server.rs) -/

inductive PreambleState where
  | INIT
  | TLS
  | CONNECT
  | DELETE
  | GET
  | HEAD
  | OPTIONS
  | P0
  | HTTP2
  | POST
  | PUT
  | PATCH
  | TRACE
  | REJECT
  | ACCEPT_TLS
  | ACCEPT_HTTP1
  | ACCEPT_HTTP2
deriving DecidableEq

/-- Terminal (accept or reject) classifier states; the Rust `next` hits
`unreachable!` when fed a byte in any of these. -/
def isTerminal : PreambleState → Bool
  | .REJECT => true
  | .ACCEPT_TLS => true
  | .ACCEPT_HTTP1 => true
  | .ACCEPT_HTTP2 => true
  | _ => false

/-- Bytes of the literal `b"CONNECT "`. -/
def connectLiteral : List Nat := [67, 79, 78, 78, 69, 67, 84, 32]

/-- Bytes of the literal `b"DELETE "`. -/
def deleteLiteral : List Nat := [68, 69, 76, 69, 84, 69, 32]

/-- Bytes of the literal `b"GET "`. -/
def getLiteral : List Nat := [71, 69, 84, 32]

/-- Bytes of the literal `b"HEAD "`. -/
def headLiteral : List Nat := [72, 69, 65, 68, 32]

/-- Bytes of the literal `b"OPTIONS "`. -/
def optionsLiteral : List Nat := [79, 80, 84, 73, 79, 78, 83, 32]

/-- Bytes of the 24-byte HTTP/2 preamble literal
`b"PRI * HTTP/2.0\r\n\r\nSM\r\n\r\n"`. -/
def http2Literal : List Nat :=
  [80, 82, 73, 32, 42, 32, 72, 84, 84, 80, 47, 50, 46, 48, 13, 10, 13, 10,
   83, 77, 13, 10, 13, 10]

/-- Bytes of the literal `b"POST "`. -/
def postLiteral : List Nat := [80, 79, 83, 84, 32]

/-- Bytes of the literal `b"PUT "`. -/
def putLiteral : List Nat := [80, 85, 84, 32]

/-- Bytes of the literal `b"PATCH "`. -/
def patchLiteral : List Nat := [80, 65, 84, 67, 72, 32]

/-- Bytes of the literal `b"TRACE "`. -/
def traceLiteral : List Nat := [84, 82, 65, 67, 69, 32]

/-- Model of the `literal_state!` macro in `BigFunnyStateMachine::next`:
compare the byte against position `idx` of the fixed literal; on the last
position go to `accept`, otherwise stay in `state`; any mismatch or running
past the literal is `REJECT`. -/
def literalState (state : PreambleState) (pattern : List Nat)
    (accept : PreambleState) (idx byte : Nat) : PreambleState :=
  match pattern.get? idx with
  | some v =>
    if byte = v then
      if idx = pattern.length - 1 then accept else state
    else .REJECT
  | none => .REJECT

/-- The `match (self.state, self.index, byte)` of `BigFunnyStateMachine::next`,
arm for arm and in the same order; the `unreachable!` arms are `none`.
Byte-equality arms of the Rust match become `if` chains on the byte. -/
def nextState (state : PreambleState) (index byte : Nat) : Option PreambleState :=
  match state, index with
  | .INIT, 0 =>
    some (if byte = 0x16 then .TLS
      else if byte = 67 then .CONNECT
      else if byte = 68 then .DELETE
      else if byte = 71 then .GET
      else if byte = 72 then .HEAD
      else if byte = 79 then .OPTIONS
      else if byte = 80 then .P0
      else if byte = 84 then .TRACE
      else .REJECT)
  | .INIT, _ + 1 => none
  | _, 0 => none
  | .TLS, 1 => some (if byte = 0x03 then .TLS else .REJECT)
  | .TLS, 2 => some (if byte = 0x01 then .TLS else .REJECT)
  | .TLS, 3 => some .TLS
  | .TLS, 4 => some .TLS
  | .TLS, 5 => some (if byte = 0x01 then .ACCEPT_TLS else .REJECT)
  | .TLS, _ => some .REJECT
  | .P0, 1 =>
    some (if byte = 79 then .POST
      else if byte = 85 then .PUT
      else if byte = 65 then .PATCH
      else if byte = 82 then .HTTP2
      else .REJECT)
  | .P0, _ => none
  | .CONNECT, idx => some (literalState .CONNECT connectLiteral .ACCEPT_HTTP1 idx byte)
  | .DELETE, idx => some (literalState .DELETE deleteLiteral .ACCEPT_HTTP1 idx byte)
  | .GET, idx => some (literalState .GET getLiteral .ACCEPT_HTTP1 idx byte)
  | .HEAD, idx => some (literalState .HEAD headLiteral .ACCEPT_HTTP1 idx byte)
  | .OPTIONS, idx => some (literalState .OPTIONS optionsLiteral .ACCEPT_HTTP1 idx byte)
  | .HTTP2, idx => some (literalState .HTTP2 http2Literal .ACCEPT_HTTP2 idx byte)
  | .POST, idx => some (literalState .POST postLiteral .ACCEPT_HTTP1 idx byte)
  | .PUT, idx => some (literalState .PUT putLiteral .ACCEPT_HTTP1 idx byte)
  | .PATCH, idx => some (literalState .PATCH patchLiteral .ACCEPT_HTTP1 idx byte)
  | .TRACE, idx => some (literalState .TRACE traceLiteral .ACCEPT_HTTP1 idx byte)
  | .REJECT, _ => none
  | .ACCEPT_TLS, _ => none
  | .ACCEPT_HTTP1, _ => none
  | .ACCEPT_HTTP2, _ => none

structure BigFunnyStateMachine where
  state : PreambleState
  index : Nat
deriving DecidableEq

/-- `BigFunnyStateMachine::new()`: state `INIT`, index `0`. -/
def BigFunnyStateMachine.new : BigFunnyStateMachine := ⟨.INIT, 0⟩

/-- One step of `BigFunnyStateMachine::next`; the index always advances by
one, and `none` models the panicking `unreachable!` arms. -/
def BigFunnyStateMachine.next (m : BigFunnyStateMachine) (byte : Nat) :
    Option BigFunnyStateMachine :=
  (nextState m.state m.index byte).map fun s => ⟨s, m.index + 1⟩

/-- Drive the machine over a byte list one byte at a time, the way the
listener would: stop feeding once a terminal state is reached (the spec says
a terminal machine must not be fed further bytes); `none` means a panic. -/
def run (m : BigFunnyStateMachine) : List Nat → Option BigFunnyStateMachine
  | [] => some m
  | byte :: rest =>
    if isTerminal m.state then some m
    else
      match m.next byte with
      | some m2 => run m2 rest
      | none => none

/-- As `run`, but also counts how many bytes were actually consumed before
the machine went terminal. -/
def runCount (m : BigFunnyStateMachine) :
    List Nat → Option (BigFunnyStateMachine × Nat)
  | [] => some (m, 0)
  | byte :: rest =>
    if isTerminal m.state then some (m, 0)
    else
      match m.next byte with
      | some m2 => (runCount m2 rest).map fun p => (p.1, p.2 + 1)
      | none => none

/-- Bytes of `"GET / HTTP/1.1\r\n"`. -/
def getRequestBytes : List Nat :=
  [71, 69, 84, 32, 47, 32, 72, 84, 84, 80, 47, 49, 46, 49, 13, 10]

/-! ## Availability list (src/avail_list.rs)

An entry's identity is the address of its `Arc` (here a `Nat`). `list` is the
recency order front-first; `tree` is the list of identities currently held by
the RBTree identity index (its internal key order is never observed by the
claims, so insertion position is immaterial). `link.is_linked()` checks on an
entry become membership checks, which coincide with the link state as long as
each identity has at most one entry — the caller contract of the `_new`
pushes. -/

structure AvailabilityList where
  list : List Nat
  tree : List Nat
deriving DecidableEq

/-- `AvailabilityList::new()`: both structures empty. -/
def AvailabilityList.new : AvailabilityList := ⟨[], []⟩

/-- Result type of `push_front_existing` / `push_back_existing`. -/
inductive InsertExistingResult where
  | Ok
  | NoMatch
  | AlreadyInList
deriving DecidableEq

/-- Result type of `cursor_at_key`; `Ok` carries the cursor as the position of
the entry in the recency order. -/
inductive CursorAtKeyResult where
  | Ok (pos : Nat)
  | NotInList
  | NoMatch
deriving DecidableEq

/-- `AvailabilityList::push_front_new`: fresh entry, inserted into the tree
and pushed to the front of the list. -/
def AvailabilityList.push_front_new (s : AvailabilityList) (shared : Nat) :
    AvailabilityList :=
  { list := shared :: s.list, tree := shared :: s.tree }

/-- `AvailabilityList::push_back_new`: fresh entry, inserted into the tree
and pushed to the back of the list. -/
def AvailabilityList.push_back_new (s : AvailabilityList) (shared : Nat) :
    AvailabilityList :=
  { list := s.list ++ [shared], tree := shared :: s.tree }

/-- `AvailabilityList::push_front_existing`: find the entry in the tree
(`NoMatch` if absent); if its list link is linked, `AlreadyInList`; otherwise
push it to the front of the list. -/
def AvailabilityList.push_front_existing (s : AvailabilityList) (what : Nat) :
    InsertExistingResult × AvailabilityList :=
  if what ∈ s.tree then
    if what ∈ s.list then (.AlreadyInList, s)
    else (.Ok, { s with list := what :: s.list })
  else (.NoMatch, s)

/-- `AvailabilityList::push_back_existing`: as `push_front_existing` but
pushes to the back of the list. -/
def AvailabilityList.push_back_existing (s : AvailabilityList) (what : Nat) :
    InsertExistingResult × AvailabilityList :=
  if what ∈ s.tree then
    if what ∈ s.list then (.AlreadyInList, s)
    else (.Ok, { s with list := s.list ++ [what] })
  else (.NoMatch, s)

/-- `hybrid_remove_entry_by_list_cursor` applied to the front cursor
(`AvailabilityList::pop_front_full`): remove the front entry from the list,
then remove it from the tree via `cursor_mut_from_ptr` + `remove().expect`.
The outer `none` models that panic (and the undefined behaviour of
`cursor_mut_from_ptr` on an unlinked entry) when the entry is not in the
tree; the inner `Option` is the function's own return value. -/
def AvailabilityList.pop_front_full (s : AvailabilityList) :
    Option (Option Nat × AvailabilityList) :=
  match s.list with
  | [] => some (none, s)
  | x :: rest =>
    if x ∈ s.tree then some (some x, { list := rest, tree := s.tree.erase x })
    else none

/-- `AvailabilityList::pop_back_full`: as `pop_front_full` but on the back
cursor. -/
def AvailabilityList.pop_back_full (s : AvailabilityList) :
    Option (Option Nat × AvailabilityList) :=
  match s.list.getLast? with
  | none => some (none, s)
  | some x =>
    if x ∈ s.tree then
      some (some x, { list := s.list.dropLast, tree := s.tree.erase x })
    else none

/-- `AvailabilityList::remove_by_key`, which is `tree.find_mut` followed by
`hybrid_remove_entry_by_tree_cursor`: remove the entry from the tree, then —
this is the branch the source actually takes — test `ptr.tree_link.is_linked()`
and only then also unlink the entry from the list. The tree removal has just
unlinked `tree_link`, so under the one-entry-per-identity representation that
test is `what ∈ tree'` with `tree'` the tree after the removal.
(The source's intent, per its own invariant comment and the parallel code in
`src/pool.rs`, was plainly `list_link`.) -/
def AvailabilityList.remove_by_key (s : AvailabilityList) (what : Nat) :
    Option Nat × AvailabilityList :=
  if what ∈ s.tree then
    let tree2 := s.tree.erase what
    if what ∈ tree2 then (some what, { list := s.list.erase what, tree := tree2 })
    else (some what, { list := s.list, tree := tree2 })
  else (none, s)

/-- `AvailabilityList::cursor_at_key`: find the entry in the tree (`NoMatch`
if absent); `NotInList` if its list link is unlinked; otherwise a cursor at
its position in the list. -/
def AvailabilityList.cursor_at_key (s : AvailabilityList) (what : Nat) :
    CursorAtKeyResult :=
  if what ∈ s.tree then
    if what ∈ s.list then .Ok (s.list.indexOf what) else .NotInList
  else .NoMatch

/-- `VeryLimitedCursor::remove_list` for a cursor at position `pos` of the
recency order: `list_cursor.remove()` drops the element from the list only
(identity tracking untouched) and reports whether the cursor was on a real
element. -/
def AvailabilityList.cursor_remove_list (s : AvailabilityList) (pos : Nat) :
    Bool × AvailabilityList :=
  if pos < s.list.length then (true, { s with list := s.list.eraseIdx pos })
  else (false, s)

/-! ## Exit negotiation (PoolWorkerManager) -/

/-- Worker replies to `RequestExit`. -/
inductive ExitReply where
  | WillExit
  | WillNotExit
deriving DecidableEq

/-- The manager state the negotiation claims observe: its availability list. -/
structure ManagerState where
  avail : AvailabilityList
deriving DecidableEq

/-- Modelled from the spec: the PoolWorkerManager's control loop is not in
src/ (`src/pool.rs` only declares the worker and message types). Per the
spec's exit-negotiation protocol: on `WillExit` the manager removes the
worker fully from the AvailabilityList by identity; on `WillNotExit` (only
legal when the request was not forced) the manager aborts the negotiation
for this worker and touches nothing. -/
def ManagerState.handle_exit_reply (m : ManagerState) (worker : Nat)
    (reply : ExitReply) : ManagerState :=
  match reply with
  | .WillExit => { avail := (m.avail.remove_by_key worker).2 }
  | .WillNotExit => m

/-- Reachable non-terminal (state, index) pairs of the classifier: the start
state at index 0, the two dispatch states at their fixed offsets, the TLS
matcher up to its accept offset, and each literal matcher strictly inside its
literal. -/
def Reach : PreambleState → Nat → Prop
  | .INIT, i => i = 0
  | .TLS, i => 1 ≤ i ∧ i ≤ 5
  | .P0, i => i = 1
  | .CONNECT, i => 1 ≤ i ∧ i < 8
  | .DELETE, i => 1 ≤ i ∧ i < 7
  | .GET, i => 1 ≤ i ∧ i < 4
  | .HEAD, i => 1 ≤ i ∧ i < 5
  | .OPTIONS, i => 1 ≤ i ∧ i < 8
  | .HTTP2, i => 1 ≤ i ∧ i < 24
  | .POST, i => 1 ≤ i ∧ i < 5
  | .PUT, i => 1 ≤ i ∧ i < 4
  | .PATCH, i => 1 ≤ i ∧ i < 6
  | .TRACE, i => 1 ≤ i ∧ i < 6
  | .REJECT, _ => False
  | .ACCEPT_TLS, _ => False
  | .ACCEPT_HTTP1, _ => False
  | .ACCEPT_HTTP2, _ => False

/-! ## Classifier lemmas -/

theorem Reach_nonterminal {s : PreambleState} {i : Nat} (h : Reach s i) :
    isTerminal s = false := by
  cases s <;> first | rfl | exact h.elim

theorem Reach_le {s : PreambleState} {i : Nat} (h : Reach s i) : i ≤ 23 := by
  cases s <;> simp only [Reach] at h <;> omega

theorem literalState_cases (st : PreambleState) (pat : List Nat)
    (acc : PreambleState) (i b : Nat) :
    literalState st pat acc i b = .REJECT ∨ literalState st pat acc i b = acc ∨
      (literalState st pat acc i b = st ∧ i + 1 < pat.length) := by
  unfold literalState
  cases hg : pat.get? i with
  | none => exact Or.inl rfl
  | some v =>
    have hlen : i < pat.length := (List.get?_eq_some.mp hg).choose
    by_cases hb : b = v
    · by_cases hi : i = pat.length - 1
      · simp [hb, hi]
      · refine Or.inr (Or.inr ⟨?_, ?_⟩)
        · simp [hb, hi]
        · omega
    · simp [hb]

theorem literal_step_reach (st : PreambleState) (pat : List Nat)
    (acc : PreambleState) (j b : Nat)
    (hacc : isTerminal acc = true)
    (hiff : ∀ k, Reach st k ↔ (1 ≤ k ∧ k < pat.length)) :
    isTerminal (literalState st pat acc (j + 1) b) = true ∨
      Reach (literalState st pat acc (j + 1) b) (j + 2) := by
  rcases literalState_cases st pat acc (j + 1) b with h | h | ⟨h, hl⟩
  · rw [h]; exact Or.inl rfl
  · rw [h]; exact Or.inl hacc
  · rw [h]; exact Or.inr ((hiff _).mpr ⟨by omega, hl⟩)

theorem step_reach (s : PreambleState) (i b : Nat) (h : Reach s i) :
    ∃ s2, nextState s i b = some s2 ∧
      (isTerminal s2 = true ∨ Reach s2 (i + 1)) := by
  cases s with
  | INIT =>
    have hi : i = 0 := h
    subst hi
    refine ⟨_, rfl, ?_⟩
    split_ifs <;>
      first
        | exact Or.inl rfl
        | (refine Or.inr ?_; simp only [Reach]; try omega)
  | TLS =>
    obtain ⟨h1, h2⟩ := h
    interval_cases i <;> refine ⟨_, rfl, ?_⟩ <;>
      first
        | (split_ifs <;>
            first
              | exact Or.inl rfl
              | (refine Or.inr ?_; simp only [Reach]; try omega))
        | exact Or.inl rfl
        | (refine Or.inr ?_; simp only [Reach]; try omega)
  | P0 =>
    have hi : i = 1 := h
    subst hi
    refine ⟨_, rfl, ?_⟩
    split_ifs <;>
      first
        | exact Or.inl rfl
        | (refine Or.inr ?_; simp only [Reach]; try omega)
  | CONNECT =>
    obtain ⟨h1, h2⟩ := h
    obtain ⟨j, rfl⟩ : ∃ j, i = j + 1 := ⟨i - 1, by omega⟩
    exact ⟨_, rfl, literal_step_reach _ _ _ j b rfl fun k => Iff.rfl⟩
  | DELETE =>
    obtain ⟨h1, h2⟩ := h
    obtain ⟨j, rfl⟩ : ∃ j, i = j + 1 := ⟨i - 1, by omega⟩
    exact ⟨_, rfl, literal_step_reach _ _ _ j b rfl fun k => Iff.rfl⟩
  | GET =>
    obtain ⟨h1, h2⟩ := h
    obtain ⟨j, rfl⟩ : ∃ j, i = j + 1 := ⟨i - 1, by omega⟩
    exact ⟨_, rfl, literal_step_reach _ _ _ j b rfl fun k => Iff.rfl⟩
  | HEAD =>
    obtain ⟨h1, h2⟩ := h
    obtain ⟨j, rfl⟩ : ∃ j, i = j + 1 := ⟨i - 1, by omega⟩
    exact ⟨_, rfl, literal_step_reach _ _ _ j b rfl fun k => Iff.rfl⟩
  | OPTIONS =>
    obtain ⟨h1, h2⟩ := h
    obtain ⟨j, rfl⟩ : ∃ j, i = j + 1 := ⟨i - 1, by omega⟩
    exact ⟨_, rfl, literal_step_reach _ _ _ j b rfl fun k => Iff.rfl⟩
  | HTTP2 =>
    obtain ⟨h1, h2⟩ := h
    obtain ⟨j, rfl⟩ : ∃ j, i = j + 1 := ⟨i - 1, by omega⟩
    exact ⟨_, rfl, literal_step_reach _ _ _ j b rfl fun k => Iff.rfl⟩
  | POST =>
    obtain ⟨h1, h2⟩ := h
    obtain ⟨j, rfl⟩ : ∃ j, i = j + 1 := ⟨i - 1, by omega⟩
    exact ⟨_, rfl, literal_step_reach _ _ _ j b rfl fun k => Iff.rfl⟩
  | PUT =>
    obtain ⟨h1, h2⟩ := h
    obtain ⟨j, rfl⟩ : ∃ j, i = j + 1 := ⟨i - 1, by omega⟩
    exact ⟨_, rfl, literal_step_reach _ _ _ j b rfl fun k => Iff.rfl⟩
  | PATCH =>
    obtain ⟨h1, h2⟩ := h
    obtain ⟨j, rfl⟩ : ∃ j, i = j + 1 := ⟨i - 1, by omega⟩
    exact ⟨_, rfl, literal_step_reach _ _ _ j b rfl fun k => Iff.rfl⟩
  | TRACE =>
    obtain ⟨h1, h2⟩ := h
    obtain ⟨j, rfl⟩ : ∃ j, i = j + 1 := ⟨i - 1, by omega⟩
    exact ⟨_, rfl, literal_step_reach _ _ _ j b rfl fun k => Iff.rfl⟩
  | REJECT => exact h.elim
  | ACCEPT_TLS => exact h.elim
  | ACCEPT_HTTP1 => exact h.elim
  | ACCEPT_HTTP2 => exact h.elim

theorem run_terminal (m : BigFunnyStateMachine) (bs : List Nat)
    (h : isTerminal m.state = true) : run m bs = some m := by
  cases bs with
  | nil => rfl
  | cons b rest => simp [run, h]

theorem run_reaches_terminal (bs : List Nat) :
    ∀ s i, Reach s i → 24 - i ≤ bs.length →
      ∃ m, run ⟨s, i⟩ bs = some m ∧ isTerminal m.state = true ∧ m.index ≤ 24 := by
  induction bs with
  | nil =>
    intro s i h hlen
    have := Reach_le h
    simp only [List.length_nil] at hlen
    omega
  | cons b rest ih =>
    intro s i h hlen
    have hnt : isTerminal s = false := Reach_nonterminal h
    obtain ⟨s2, hs2, hterm⟩ := step_reach s i b h
    have hrun : run ⟨s, i⟩ (b :: rest) = run ⟨s2, i + 1⟩ rest := by
      simp [run, hnt, BigFunnyStateMachine.next, hs2]
    rcases hterm with hterm | hreach
    · refine ⟨⟨s2, i + 1⟩, ?_, hterm, ?_⟩
      · rw [hrun]; exact run_terminal _ _ hterm
      · show i + 1 ≤ 24
        have := Reach_le h
        omega
    · have hlen2 : 24 - (i + 1) ≤ rest.length := by
        simp only [List.length_cons] at hlen
        omega
      obtain ⟨m, hm, hmt, hmi⟩ := ih s2 (i + 1) hreach hlen2
      exact ⟨m, by rw [hrun]; exact hm, hmt, hmi⟩

theorem runCount_total (bs : List Nat) :
    ∀ s i, Reach s i ∨ isTerminal s = true →
      ∃ m c, runCount ⟨s, i⟩ bs = some (m, c) ∧ m.index = i + c := by
  induction bs with
  | nil => intro s i _; exact ⟨⟨s, i⟩, 0, rfl, rfl⟩
  | cons b rest ih =>
    intro s i h
    rcases h with h | h
    · have hnt : isTerminal s = false := Reach_nonterminal h
      obtain ⟨s2, hs2, hterm⟩ := step_reach s i b h
      obtain ⟨m, c, hm, hmi⟩ := ih s2 (i + 1) hterm.symm
      refine ⟨m, c + 1, ?_, by omega⟩
      simp [runCount, hnt, BigFunnyStateMachine.next, hs2, hm]
    · exact ⟨⟨s, i⟩, 0, by simp [runCount, h], rfl⟩

/-! ## Claim theorems: the classifier -/

/-- C3: from the initial classifier state, `"GET / HTTP/1.1\r\n"` reaches
`ACCEPT_HTTP1` having consumed exactly the 4 bytes of the method plus space;
the 24-byte HTTP/2 preamble reaches `ACCEPT_HTTP2` exactly on its last byte,
with every proper prefix left non-terminal; `0x16 0x03 0x01`, any two length
bytes, then `0x01` reaches `ACCEPT_TLS`; and `"ZZZZ"` is rejected on the
byte at position 0. -/
theorem classifier_scenarios :
    runCount BigFunnyStateMachine.new getRequestBytes
      = some (⟨.ACCEPT_HTTP1, 4⟩, 4)
    ∧ runCount BigFunnyStateMachine.new http2Literal
        = some (⟨.ACCEPT_HTTP2, 24⟩, 24)
    ∧ ((List.range 24).all fun k =>
        match runCount BigFunnyStateMachine.new (http2Literal.take k) with
        | some (m, _) => !isTerminal m.state
        | none => false) = true
    ∧ (∀ lenHi lenLo : Nat,
        runCount BigFunnyStateMachine.new [0x16, 0x03, 0x01, lenHi, lenLo, 0x01]
          = some (⟨.ACCEPT_TLS, 6⟩, 6))
    ∧ runCount BigFunnyStateMachine.new [90, 90, 90, 90]
        = some (⟨.REJECT, 1⟩, 1) :=
  ⟨by decide, by decide, by decide, fun lenHi lenLo => rfl, by decide⟩

/-- C7: every byte sequence drives the classifier from its initial state to a
terminal state after consuming at most 24 bytes, the length of the HTTP/2
preamble literal. -/
theorem classifier_terminates_within_24_bytes (bs : List Nat)
    (h : 24 ≤ bs.length) :
    ∃ m, run BigFunnyStateMachine.new bs = some m
      ∧ isTerminal m.state = true ∧ m.index ≤ 24 :=
  run_reaches_terminal bs .INIT 0 rfl (by omega)

/-- Witness for C7 at a concrete 24-byte input. -/
theorem classifier_terminates_within_24_bytes_witness :
    ∃ m, run BigFunnyStateMachine.new (List.replicate 24 0) = some m
      ∧ isTerminal m.state = true ∧ m.index ≤ 24 :=
  classifier_terminates_within_24_bytes (List.replicate 24 0) (by decide)

/-- C8: driving the classifier from `BigFunnyStateMachine::new()` over any
byte list, feeding only non-terminal machines, never takes an
`unreachable!` arm (the run never returns `none`), and the machine's index
always equals the number of bytes consumed so far. -/
theorem classifier_total_on_reachable (bs : List Nat) :
    ∃ m c, runCount BigFunnyStateMachine.new bs = some (m, c) ∧ m.index = c := by
  obtain ⟨m, c, hm, hi⟩ := runCount_total bs .INIT 0 (Or.inl rfl)
  exact ⟨m, c, hm, by omega⟩

/-! ## Claim theorems: the availability list -/

/-- C1 (violated by the code): after `push_front_new(0)` on the empty
structure followed by `remove_by_key(0)`, identity 0 is still in the recency
order but no longer in the identity index — the order-implies-index
invariant documented on `AvailabilityList` fails, because
`hybrid_remove_entry_by_tree_cursor` tests `tree_link` (just unlinked by the
tree removal) instead of `list_link` and so never unlinks the entry from the
list. -/
theorem order_implies_index_violation :
    0 ∈ (((AvailabilityList.new.push_front_new 0).remove_by_key 0).2).list
    ∧ 0 ∉ (((AvailabilityList.new.push_front_new 0).remove_by_key 0).2).tree := by
  decide

/-- C2 (violated by the code): `remove_by_key(0)` after `push_front_new(0)`
returns the handle and a repeat lookup finds nothing, but the handle is NOT
absent from the recency order: the buggy `tree_link` test leaves it linked in
the list (in the real code, as a dangling reference to the freed entry). -/
theorem full_removal_violation :
    ((AvailabilityList.new.push_front_new 0).remove_by_key 0).1 = some 0
    ∧ 0 ∈ (((AvailabilityList.new.push_front_new 0).remove_by_key 0).2).list
    ∧ ((((AvailabilityList.new.push_front_new 0).remove_by_key 0).2).remove_by_key 0).1
        = none := by
  decide

/-- C4: for every state and handle, `push_front_existing` and
`push_back_existing` return `NoMatch` when the identity is not indexed,
`AlreadyInList` when it is indexed and already in the recency order, and
`Ok` otherwise, inserting at the front respectively back; in the `NoMatch`
and `AlreadyInList` cases the state is completely unchanged. -/
theorem push_existing_characterization (s : AvailabilityList) (h : Nat) :
    (h ∉ s.tree →
      s.push_front_existing h = (.NoMatch, s)
      ∧ s.push_back_existing h = (.NoMatch, s))
    ∧ (h ∈ s.tree → h ∈ s.list →
      s.push_front_existing h = (.AlreadyInList, s)
      ∧ s.push_back_existing h = (.AlreadyInList, s))
    ∧ (h ∈ s.tree → h ∉ s.list →
      s.push_front_existing h = (.Ok, { s with list := h :: s.list })
      ∧ s.push_back_existing h = (.Ok, { s with list := s.list ++ [h] })) := by
  refine ⟨fun h1 => ?_, fun h1 h2 => ?_, fun h1 h2 => ?_⟩
  · simp [AvailabilityList.push_front_existing, AvailabilityList.push_back_existing, h1]
  · simp [AvailabilityList.push_front_existing, AvailabilityList.push_back_existing,
      h1, h2]
  · simp [AvailabilityList.push_front_existing, AvailabilityList.push_back_existing,
      h1, h2]

/-- Witness for C4 at a concrete state: re-admission of an indexed,
order-absent handle succeeds. -/
theorem push_existing_characterization_witness :
    AvailabilityList.push_front_existing ⟨[], [5]⟩ 5 = (.Ok, ⟨[5], [5]⟩) :=
  ((push_existing_characterization ⟨[], [5]⟩ 5).2.2 (by decide) (by decide)).1

/-- C5: for a handle X not previously tracked, after `push_front_new(X)`,
removing X from the order only (cursor at X obtained by `cursor_at_key`,
then `remove_list`), `push_front_existing(X)` returns `Ok` and X is again at
the front of the order, and exactly one identity-index entry for X exists at
every step of the sequence. -/
theorem partial_removal_roundtrip (s : AvailabilityList) (X : Nat)
    (htree : X ∉ s.tree) (hlist : X ∉ s.list) :
    (s.push_front_new X).cursor_at_key X = .Ok 0
    ∧ ((s.push_front_new X).cursor_remove_list 0).1 = true
    ∧ (((s.push_front_new X).cursor_remove_list 0).2).list = s.list
    ∧ ((((s.push_front_new X).cursor_remove_list 0).2).push_front_existing X).1 = .Ok
    ∧ ((((s.push_front_new X).cursor_remove_list 0).2).push_front_existing X).2.list
        = X :: s.list
    ∧ (s.push_front_new X).tree.count X = 1
    ∧ (((s.push_front_new X).cursor_remove_list 0).2).tree.count X = 1
    ∧ ((((s.push_front_new X).cursor_remove_list 0).2).push_front_existing X).2.tree.count X
        = 1 := by
  have hcount : (X :: s.tree).count X = 1 := by
    simp [List.count_cons_self, List.count_eq_zero.mpr htree]
  refine ⟨?_, ?_, ?_, ?_, ?_, ?_, ?_, ?_⟩ <;>
    simp [AvailabilityList.push_front_new, AvailabilityList.cursor_at_key,
      AvailabilityList.cursor_remove_list, AvailabilityList.push_front_existing,
      hlist, hcount, List.count_eq_zero.mpr htree]

/-- Witness for C5 starting from the empty structure. -/
theorem partial_removal_roundtrip_witness :
    (AvailabilityList.new.push_front_new 0).cursor_at_key 0 = .Ok 0 :=
  (partial_removal_roundtrip AvailabilityList.new 0 (by decide) (by decide)).1

/-- C6: from any state, after pushing three distinct untracked handles to the
front, three `pop_front_full` calls return them in LIFO order. -/
theorem lifo_three_pops (s : AvailabilityList) (P1 P2 P3 : Nat)
    (hdistinct : P1 ≠ P2 ∧ P1 ≠ P3 ∧ P2 ≠ P3)
    (huntracked : P1 ∉ s.tree ∧ P2 ∉ s.tree ∧ P3 ∉ s.tree) :
    (((s.push_front_new P1).push_front_new P2).push_front_new P3).pop_front_full
      = some (some P3, (s.push_front_new P1).push_front_new P2)
    ∧ ((s.push_front_new P1).push_front_new P2).pop_front_full
        = some (some P2, s.push_front_new P1)
    ∧ (s.push_front_new P1).pop_front_full = some (some P1, s) := by
  refine ⟨?_, ?_, ?_⟩ <;>
    simp [AvailabilityList.push_front_new, AvailabilityList.pop_front_full,
      List.erase_cons_head]

/-- Witness for C6 starting from the empty structure with handles 1, 2, 3. -/
theorem lifo_three_pops_witness :
    (((AvailabilityList.new.push_front_new 1).push_front_new 2).push_front_new 3).pop_front_full
      = some (some 3, (AvailabilityList.new.push_front_new 1).push_front_new 2) :=
  (lifo_three_pops AvailabilityList.new 1 2 3 ⟨by decide, by decide, by decide⟩
    ⟨by decide, by decide, by decide⟩).1

/-! ## Claim theorems: exit negotiation -/

/-- C10: a worker that replies `WillNotExit` to a non-forced exit request
stays fully tracked — still present in the identity index, with both the
recency order and the identity index exactly as before the request. -/
theorem exit_refusal_preserves_tracking (m : ManagerState) (w : Nat)
    (reply : ExitReply) (hreply : reply = .WillNotExit)
    (htracked : w ∈ m.avail.tree) :
    w ∈ (m.handle_exit_reply w reply).avail.tree
    ∧ (m.handle_exit_reply w reply).avail.list = m.avail.list
    ∧ (m.handle_exit_reply w reply).avail.tree = m.avail.tree := by
  subst hreply
  exact ⟨htracked, rfl, rfl⟩

/-- Witness for C10 at a concrete manager state. -/
theorem exit_refusal_preserves_tracking_witness :
    (0 : Nat)
      ∈ ((⟨⟨[0], [0]⟩⟩ : ManagerState).handle_exit_reply 0 .WillNotExit).avail.tree :=
  (exit_refusal_preserves_tracking ⟨⟨[0], [0]⟩⟩ 0 .WillNotExit rfl (by decide)).1
